import Mathlib

/-!
Shallow embedding of `src/bot.py` (Telegram Media Archiver).

The embedding covers:
* the metadata store (`_load_metadata` / `_save_metadata`, modelled on a JSON
  AST, plus a textual printer and a write trace for the atomicity question),
* the group archiver `save_media_group` (folder creation with the
  `exist_ok` discipline, per-message processing, download failures modelled
  by an oracle `dl : PhotoInfo → Bool` standing for the fallible
  `get_file`/`download_to_drive` calls, descriptor write, index update),
* the flush portion of `handle_media` (lines 162-175 of the source), and
* a discrete-event simulation of the media-group buffer with its
  one-sleep-per-message flush checks (`defaultdict` semantics included).
  The flush is modelled non-atomically, following the suspension points of
  the cooperative scheduler: the membership test and hand-off are one
  synchronous slice, the `del` of the entry a later one, separated by the
  flush's awaits (`save_media_group`'s downloads and `reply_text`), so
  checks waking during a flush window observe the still-populated entry,
  and a `del` racing a completed `del` raises `KeyError`.

Machine integers do not occur in the relevant code paths; counters are
unbounded Python ints, modelled as `Nat`/`Int`.
-/

set_option maxHeartbeats 1000000

/-- Association-list lookup; models a Python `dict` lookup and directory
listing lookups.  First binding wins (our setters never duplicate keys). -/
def aget {α : Type} : List (String × α) → String → Option α
  | [], _ => none
  | (k, v) :: rest, key => if k = key then some v else aget rest key

/-- Association-list update; models `d[key] = v` and overwriting a file. -/
def aset {α : Type} : List (String × α) → String → α → List (String × α)
  | [], key, v => [(key, v)]
  | (k, w) :: rest, key, v =>
    if k = key then (key, v) :: rest else (k, w) :: aset rest key v

/-- A photo size variant as delivered by the platform (`PhotoSize` plus the
`file_path` that `get_file` would return, from which the extension is cut). -/
structure PhotoInfo where
  file_id : String
  file_size : Nat
  width : Nat
  height : Nat
  remote_path : String
deriving DecidableEq

/-- Sender of a message (`message.from_user`). -/
structure TgUser where
  username : Option String
  full_name : String
deriving DecidableEq

/-- An inbound message, with the fields `save_media_group` reads.
`photo` is the list of size variants ordered ascending, the code takes the
last (`msg.photo[-1]`); empty list means "no photo". -/
structure Msg where
  message_id : Nat
  caption : Option String
  from_user : Option TgUser
  chat_id : Int
  photo : List PhotoInfo
deriving DecidableEq

/-- One entry of `group_info['files']`. -/
structure StoredFile where
  file_id : String
  filename : String
  size : Nat
  width : Nat
  height : Nat
deriving DecidableEq

/-- The per-group descriptor written to `info.json`. -/
structure GroupInfo where
  media_group_id : String
  date : String
  caption : String
  files : List StoredFile
  sender : String
  chat_id : Option Int
  message_count : Nat
deriving DecidableEq

/-- Contents of a file inside a group folder: either downloaded photo bytes
(identified by the source photo id) or the `info.json` descriptor. -/
inductive FileEntry where
  | photo (content : String)
  | info (g : GroupInfo)
deriving DecidableEq

/-- A group folder: file name to contents. -/
abbrev Folder := List (String × FileEntry)

/-- One entry of `metadata['groups']`. -/
structure GroupSummary where
  group_id : String
  folder : String
  date : String
  files_count : Nat
  caption : String
deriving DecidableEq

/-- The metadata index (`metadata.json` contents as a typed value). -/
structure Metadata where
  groups : List GroupSummary
  total_files : Nat
deriving DecidableEq

/-- A JSON document, as produced by `json.dump` / consumed by `json.load`. -/
inductive Json where
  | null
  | str (s : String)
  | num (n : Int)
  | arr (xs : List Json)
  | obj (fields : List (String × Json))

/-- Field lookup in a JSON object (Python `d[key]`). -/
def jlookup : List (String × Json) → String → Option Json
  | [], _ => none
  | (k, v) :: rest, key => if k = key then some v else jlookup rest key

/-- JSON encoding of one group summary, mirroring the dict built at source
lines 125-131. -/
def encodeSummary (g : GroupSummary) : Json :=
  Json.obj [("group_id", Json.str g.group_id), ("folder", Json.str g.folder),
    ("date", Json.str g.date), ("files_count", Json.num (Int.ofNat g.files_count)),
    ("caption", Json.str g.caption)]

/-- JSON encoding of the metadata index. -/
def encodeMetadata (md : Metadata) : Json :=
  Json.obj [("groups", Json.arr (md.groups.map encodeSummary)),
    ("total_files", Json.num (Int.ofNat md.total_files))]

/-- Read a JSON string. -/
def asStr : Option Json → Option String
  | some (Json.str s) => some s
  | _ => none

/-- Read a JSON non-negative integer. -/
def asNat : Option Json → Option Nat
  | some (Json.num (Int.ofNat n)) => some n
  | _ => none

/-- Decode one group summary from JSON, by field lookup as the Python code
would index the loaded dict. -/
def decodeSummary : Json → Option GroupSummary
  | Json.obj fs =>
    match asStr (jlookup fs "group_id"), asStr (jlookup fs "folder"),
        asStr (jlookup fs "date"), asNat (jlookup fs "files_count"),
        asStr (jlookup fs "caption") with
    | some gid, some fol, some d, some fc, some cap =>
      some { group_id := gid, folder := fol, date := d, files_count := fc, caption := cap }
    | _, _, _, _, _ => none
  | _ => none

/-- Decode a list of group summaries; any malformed entry fails the load. -/
def decodeSummaries : List Json → Option (List GroupSummary)
  | [] => some []
  | j :: rest =>
    match decodeSummary j, decodeSummaries rest with
    | some g, some gs => some (g :: gs)
    | _, _ => none

/-- Decode the metadata index from JSON. -/
def decodeMetadata : Json → Option Metadata
  | Json.obj fs =>
    match jlookup fs "groups", asNat (jlookup fs "total_files") with
    | some (Json.arr gl), some t =>
      match decodeSummaries gl with
      | some gs => some { groups := gs, total_files := t }
      | none => none
    | _, _ => none
  | _ => none

/-- `MediaArchiver._save_metadata` (source lines 61-64): the persisted file
slot after the save holds the serialized index. -/
def _save_metadata (md : Metadata) : Option Json :=
  some (encodeMetadata md)

/-- `MediaArchiver._load_metadata` (source lines 54-59): reads the persisted
index if the file exists, otherwise returns the empty index; `none` as a
result models `json.load` raising on a document of the wrong shape. -/
def _load_metadata (file : Option Json) : Option Metadata :=
  match file with
  | some j => decodeMetadata j
  | none => some { groups := [], total_files := 0 }

/-- Zero-padded decimal rendering, Python `'%0wd' % n` (wider numbers are
kept whole). -/
def padNum (w n : Nat) : String :=
  let s := toString n
  String.mk (List.replicate (w - s.length) '0') ++ s

/-- Folder name for the group with sequence number `n`: `group_%04d`. -/
def groupDirName (n : Nat) : String :=
  "group_" ++ padNum 4 n

/-- Split a character list at every `'.'` (Python `str.split('.')`): the
result is never empty and keeps empty pieces, exactly as Python does. -/
def splitDotAux : List Char → List Char → List (List Char)
  | [], acc => [acc.reverse]
  | c :: rest, acc =>
    if c = '.' then acc.reverse :: splitDotAux rest [] else splitDotAux rest (c :: acc)

/-- `file.file_path.split('.')[-1]`. -/
def fileExt (path : String) : String :=
  String.mk ((((splitDotAux path.data []).getLast?).getD []))

/-- Local file name for the photo of the `idx`-th message: `photo_%02d.<ext>`. -/
def photoFilename (idx : Nat) (ext : String) : String :=
  "photo_" ++ padNum 2 idx ++ "." ++ ext

/-- `caption[:100] if caption else ''`. -/
def truncCaption (c : String) : String :=
  if c = "" then "" else String.mk (c.data.take 100)

/-- `msg.from_user.username or msg.from_user.full_name` (Python truthiness:
a missing or empty username falls back to the display name). -/
def senderOf (u : TgUser) : String :=
  match u.username with
  | some s => if s = "" then u.full_name else s
  | none => u.full_name

/-- The `files` entry recorded for one downloaded photo. -/
def mkStoredFile (p : PhotoInfo) (fname : String) : StoredFile :=
  { file_id := p.file_id, filename := fname, size := p.file_size,
    width := p.width, height := p.height }

/-- The fresh `group_info` dict of source lines 75-83. -/
def initGroupInfo (media_group_id now : String) (messages : List Msg) : GroupInfo :=
  { media_group_id := media_group_id, date := now, caption := "", files := [],
    sender := "", chat_id := none, message_count := messages.length }

/-- The message loop of `save_media_group` (source lines 86-117), 1-indexed.
Returns the folder contents after the downloads performed so far and the
updated descriptor, or `none` in place of the descriptor when a download
failed: files written before the failing download stay in the folder. -/
def procMsgs (dl : PhotoInfo → Bool) :
    List Msg → Nat → GroupInfo → Folder → Folder × Option GroupInfo
  | [], _, gi, fol => (fol, some gi)
  | m :: rest, idx, gi, fol =>
    let gi1 := if idx = 1 ∧ m.caption.getD "" ≠ "" then
        { gi with caption := m.caption.getD "" } else gi
    let gi2 := match m.from_user with
      | some u => { gi1 with sender := senderOf u }
      | none => gi1
    let gi3 := { gi2 with chat_id := some m.chat_id }
    match m.photo.getLast? with
    | some p =>
      if dl p then
        let fname := photoFilename idx (fileExt p.remote_path)
        procMsgs dl rest (idx + 1)
          { gi3 with files := gi3.files ++ [mkStoredFile p fname] }
          (aset fol fname (FileEntry.photo p.file_id))
      else (fol, none)
    | none => procMsgs dl rest (idx + 1) gi3 fol

/-- The summary appended to `metadata['groups']` (source lines 125-131). -/
def mkSummary (media_group_id dirName : String) (gi : GroupInfo) : GroupSummary :=
  { group_id := media_group_id, folder := dirName, date := gi.date,
    files_count := gi.files.length, caption := truncCaption gi.caption }

/-- The archiver's state: the `media_groups` directory tree, the in-memory
`self.metadata` dict, and the persisted `metadata.json` slot. -/
structure ArchState where
  fs : List (String × Folder)
  metadata : Metadata
  metadataFile : Option Json

/-- `MediaArchiver.save_media_group` (source lines 66-140).  The sequence
number is `len(self.metadata['groups']) + 1`; `mkdir(exist_ok=True)` keeps
an existing folder's contents; on any download failure the whole call
reports `False` (the source's catch-all) with the side effects performed so
far kept; on success the descriptor is written, the summary appended, the
total bumped and the index persisted. -/
def save_media_group (dl : PhotoInfo → Bool) (s : ArchState)
    (media_group_id : String) (messages : List Msg) (now : String) :
    Bool × ArchState :=
  match procMsgs dl messages 1 (initGroupInfo media_group_id now messages)
      ((aget s.fs (groupDirName (s.metadata.groups.length + 1))).getD []) with
  | (fol, none) =>
    (false, { s with fs := aset s.fs (groupDirName (s.metadata.groups.length + 1)) fol })
  | (fol, some gi) =>
    let md : Metadata :=
      { groups := s.metadata.groups ++
          [mkSummary media_group_id (groupDirName (s.metadata.groups.length + 1)) gi],
        total_files := s.metadata.total_files + gi.files.length }
    (true, { fs := aset s.fs (groupDirName (s.metadata.groups.length + 1))
               (aset fol "info.json" (FileEntry.info gi)),
             metadata := md, metadataFile := _save_metadata md })

/-- A sequence of archive calls, each given by group id, messages and
timestamp; returns the final state and the list of results in order. -/
def runArchives (dl : PhotoInfo → Bool) :
    List (String × List Msg × String) → ArchState → ArchState × List Bool
  | [], s => (s, [])
  | (gid, msgs, now) :: rest, s =>
    ((runArchives dl rest (save_media_group dl s gid msgs now).2).1,
     (save_media_group dl s gid msgs now).1
       :: (runArchives dl rest (save_media_group dl s gid msgs now).2).2)

/-- A fresh archiver over an empty download directory (`_load_metadata` of a
missing file gives the empty index; nothing persisted yet). -/
def emptyArchState : ArchState :=
  { fs := [], metadata := { groups := [], total_files := 0 }, metadataFile := none }

/-- The acknowledgement text of source line 171. -/
def ackText (n : Nat) : String :=
  "✅ Сохранено " ++ toString n ++ " фото из альбома"

/-- Outcome of one flush check of `handle_media`: archive result (if an
archive was attempted), archiver state, replies sent, and the buffer entry
for the group id afterwards. -/
structure FlushOut where
  archResult : Option Bool
  arch : ArchState
  replies : List String
  entryAfter : Option (List Msg)

/-- The post-sleep part of `handle_media` (source lines 162-175): look the
group id up in the `defaultdict` buffer (inserting an empty list when the
key is absent), and if the entry is non-empty archive it, reply only on
success, and delete the entry. -/
def handle_media_flush (dl : PhotoInfo → Bool) (s : ArchState)
    (media_group_id : String) (entry : Option (List Msg)) (now : String) :
    FlushOut :=
  let cur := entry.getD []
  if cur = [] then
    { archResult := none, arch := s, replies := [], entryAfter := some [] }
  else
    let r := save_media_group dl s media_group_id cur now
    { archResult := some r.1, arch := r.2,
      replies := if r.1 = true then [ackText cur.length] else [],
      entryAfter := none }

/-- An event of the buffer simulation: one synchronous slice of a
`handle_media` task between two suspension points.  `arr i` is the append
of message `i` (source line 156, before `await asyncio.sleep(1)`); `read i`
is the slice from the sleep's expiry through the defaultdict membership
test and — when the entry is non-empty — the hand-off of the aliased list
into `await archiver.save_media_group(...)` (lines 162-166); `del i` is the
slice after that task's awaits (`save_media_group` and `reply_text`)
complete: the `del media_group_buffer[media_group_id]` of line 175.  A task
whose `read` found the entry empty never executes its `del` slice (dead
branch); its statically scheduled `del` event is a no-op below. -/
inductive Ev where
  | arr (i : Nat)
  | read (i : Nat)
  | del (i : Nat)
deriving DecidableEq

/-- Buffer state for one group id: the `media_group_buffer` entry (`none`
means the key is absent, `some []` the defaultdict's empty entry), the list
of message batches handed to the archiver so far, the ids of the checks
that performed a hand-off and whose `del` is still due, and the number of
`KeyError`s raised by `del` on an already-deleted key. -/
structure BufState where
  buffer : Option (List Nat)
  archived : List (List Nat)
  flushed : List Nat
  errors : Nat
deriving DecidableEq

/-- One scheduler step.  An arrival appends to the defaultdict entry.  A
`read` re-reads the entry through the defaultdict (inserting `[]` when the
key is absent); when non-empty it records the handed-off batch and marks
its `del` as pending — the entry itself stays in the dict, since the delete
only happens after the flush's awaits.  A `del` of a flushing check removes
whatever entry is present, or raises `KeyError` (counted) when another
check's `del` got there first; a `del` of a non-flushing check never runs.
The batch content is recorded at hand-off: the program hands off an alias,
which arrivals during the flush window would mutate, but no theorem below
is stated over a schedule with an arrival inside a flush window. -/
def stepEv (st : BufState) : Nat × Ev → BufState
  | (_, Ev.arr i) => { st with buffer := some (st.buffer.getD [] ++ [i]) }
  | (_, Ev.read i) =>
    let cur := st.buffer.getD []
    if cur = [] then { st with buffer := some [] }
    else { st with archived := st.archived ++ [cur], flushed := st.flushed ++ [i] }
  | (_, Ev.del i) =>
    if i ∈ st.flushed then
      if st.buffer.isSome then { st with buffer := none }
      else { st with errors := st.errors + 1 }
    else st

/-- Timed arrival events for messages `k, k+1, ...` at the given times. -/
def timedArrFrom : Nat → List Nat → List (Nat × Ev)
  | _, [] => []
  | k, t :: ts => (t, Ev.arr k) :: timedArrFrom (k + 1) ts

/-- Timed wake-ups of the flush checks: the check of the message arriving
at `t` performs its membership test at `t + Q`, `Q` being the quiet period
(the source's 1 second). -/
def timedReadsFrom (Q : Nat) : Nat → List Nat → List (Nat × Ev)
  | _, [] => []
  | k, t :: ts => (t + Q, Ev.read k) :: timedReadsFrom Q (k + 1) ts

/-- Timed deletes: check `k`, when it flushes, spends `D k` time units in
the awaits of `save_media_group` (downloads) and `reply_text`, so its `del`
slice runs at `t + Q + D k`. -/
def timedDelsFrom (Q : Nat) (D : Nat → Nat) : Nat → List Nat → List (Nat × Ev)
  | _, [] => []
  | k, t :: ts => (t + Q + D k, Ev.del k) :: timedDelsFrom Q D (k + 1) ts

/-- Merge two timed event lists by time (fuel-indexed so that the kernel can
evaluate it); at equal times the left list goes first. -/
def mergeFuel : Nat → List (Nat × Ev) → List (Nat × Ev) → List (Nat × Ev)
  | 0, as, cs => as ++ cs
  | _ + 1, [], cs => cs
  | _ + 1, a :: as, [] => a :: as
  | fuel + 1, a :: as, c :: cs =>
    if a.1 ≤ c.1 then a :: mergeFuel fuel as (c :: cs)
    else c :: mergeFuel fuel (a :: as) cs

/-- Time-ordered merge of two event lists. -/
def mergeEv (as cs : List (Nat × Ev)) : List (Nat × Ev) :=
  mergeFuel (as.length + cs.length) as cs

/-- The event schedule for one group whose messages arrive at the given
times, with `D i` the flush duration of check `i`: every arrival schedules
its own check one quiet period later, each flushing check deletes the entry
only `D i` after its membership test, and the cooperative loop runs all
synchronous slices in time order. -/
def mkSchedule (Q : Nat) (D : Nat → Nat) (ts : List Nat) : List (Nat × Ev) :=
  mergeEv (timedArrFrom 1 ts)
    (mergeEv (timedReadsFrom Q 1 ts) (timedDelsFrom Q D 1 ts))

/-- Run the buffer simulation from an absent entry and no flushes. -/
def runSim (evs : List (Nat × Ev)) : BufState :=
  evs.foldl stepEv { buffer := none, archived := [], flushed := [], errors := 0 }

/-- JSON string escaping for the printer (quote and backslash; the code
dumps with `ensure_ascii=False`, so other characters pass through). -/
def escChar (c : Char) : String :=
  if c = '"' then "\\\"" else if c = '\\' then "\\\\" else String.mk [c]

/-- A JSON string literal. -/
def jstr (s : String) : String :=
  "\"" ++ String.join (s.data.map escChar) ++ "\""

/-- Textual rendering of one group summary (formatting is not load-bearing;
`json.dump` pretty-prints, we render compactly). -/
def printSummary (g : GroupSummary) : String :=
  "\x7b\"group_id\": " ++ jstr g.group_id ++ ", \"folder\": " ++ jstr g.folder ++
    ", \"date\": " ++ jstr g.date ++ ", \"files_count\": " ++ toString g.files_count ++
    ", \"caption\": " ++ jstr g.caption ++ "\x7d"

/-- Textual rendering of the metadata index, the byte content
`_save_metadata` produces. -/
def printMetadata (md : Metadata) : String :=
  "\x7b\"groups\": [" ++ String.intercalate ", " (md.groups.map printSummary) ++
    "], \"total_files\": " ++ toString md.total_files ++ "\x7d"

/-- The sequence of file contents visible to a concurrent reader while
`_save_metadata` runs: `open(..., 'w')` first truncates the file (state
`""`), then the serialization is written left to right. -/
def writeStates (s : String) : List String :=
  (List.range (s.data.length + 1)).map (fun k => String.mk (s.data.take k))

/-- Visible intermediate states of the metadata file during a save of the
given index. -/
def saveMetadataTrace (md : Metadata) : List String :=
  writeStates (printMetadata md)

/-- Folder contents at a path, empty when the folder does not exist. -/
def folderOf (fs : List (String × Folder)) (d : String) : Folder :=
  (aget fs d).getD []


/-! Concrete fixtures used by counterexamples and witnesses. -/

/-- A photo variant with id `f1`. -/
def p1 : PhotoInfo :=
  { file_id := "f1", file_size := 10, width := 3, height := 4, remote_path := "a/b.jpg" }

/-- A photo variant with id `f2`. -/
def p2 : PhotoInfo :=
  { file_id := "f2", file_size := 11, width := 3, height := 4, remote_path := "a/c.jpg" }

/-- A photo variant with id `f3`. -/
def p3 : PhotoInfo :=
  { file_id := "f3", file_size := 12, width := 3, height := 4, remote_path := "a/d.jpg" }

/-- A photo variant with id `f9`, same extension as the others. -/
def p9 : PhotoInfo :=
  { file_id := "f9", file_size := 13, width := 3, height := 4, remote_path := "z.jpg" }

/-- First message of the fixture album (carries caption and sender). -/
def msgA : Msg :=
  { message_id := 1, caption := some "hello",
    from_user := some { username := some "u", full_name := "U V" },
    chat_id := 5, photo := [p1] }

/-- Second message of the fixture album. -/
def msgB : Msg :=
  { message_id := 2, caption := none, from_user := none, chat_id := 5, photo := [p2] }

/-- Third message of the fixture album. -/
def msgC : Msg :=
  { message_id := 3, caption := none, from_user := none, chat_id := 5, photo := [p3] }

/-- A later, single-photo message. -/
def msgD : Msg :=
  { message_id := 9, caption := none, from_user := none, chat_id := 5, photo := [p9] }

/-- Download oracle that fails exactly on photo `f2` (the second attachment
of the fixture album). -/
def dlC1 : PhotoInfo → Bool := fun p => p.file_id != "f2"

/-- Download oracle that fails exactly on photo `f3` (the last attachment of
the fixture album). -/
def dlC10 : PhotoInfo → Bool := fun p => p.file_id != "f3"

/-! Association-list lemmas. -/

/-- Reading back the key just written. -/
theorem aget_aset_self {α : Type} (l : List (String × α)) (k : String) (v : α) :
    aget (aset l k v) k = some v := by
  induction l with
  | nil => simp [aset, aget]
  | cons a rest ih =>
    obtain ⟨ka, va⟩ := a
    by_cases h : ka = k
    · simp [aset, h, aget]
    · simp [aset, h, aget, ih]

/-- Writing one key does not change any other key. -/
theorem aget_aset_ne {α : Type} (l : List (String × α)) (k : String) (v : α)
    (k2 : String) (h : k ≠ k2) : aget (aset l k v) k2 = aget l k2 := by
  induction l with
  | nil => simp [aset, aget, h]
  | cons a rest ih =>
    obtain ⟨ka, va⟩ := a
    by_cases h1 : ka = k
    · subst h1
      simp [aset, aget, h]
    · by_cases h2 : ka = k2
      · subst h2
        simp [aset, aget, h1]
      · simp [aset, aget, h1, h2, ih]

/-! Facts about one `save_media_group` call. -/

/-- Case analysis of one archive call: on failure the in-memory index and
the persisted index file are untouched; on success exactly one summary is
appended, built from the final descriptor, the total is bumped by that
group's file count, and the index is persisted. -/
theorem save_md_step (dl : PhotoInfo → Bool) (s : ArchState) (gid : String)
    (msgs : List Msg) (now : String) :
    ((save_media_group dl s gid msgs now).1 = false ∧
      (save_media_group dl s gid msgs now).2.metadata = s.metadata ∧
      (save_media_group dl s gid msgs now).2.metadataFile = s.metadataFile) ∨
    (∃ gi : GroupInfo, (save_media_group dl s gid msgs now).1 = true ∧
      (save_media_group dl s gid msgs now).2.metadata.groups
        = s.metadata.groups
          ++ [mkSummary gid (groupDirName (s.metadata.groups.length + 1)) gi] ∧
      (save_media_group dl s gid msgs now).2.metadata.total_files
        = s.metadata.total_files + gi.files.length ∧
      (save_media_group dl s gid msgs now).2.metadataFile
        = _save_metadata (save_media_group dl s gid msgs now).2.metadata) := by
  rcases hp : procMsgs dl msgs 1 (initGroupInfo gid now msgs)
      ((aget s.fs (groupDirName (s.metadata.groups.length + 1))).getD []) with ⟨fol, gi?⟩
  cases gi? with
  | none =>
    left
    simp [save_media_group, hp]
  | some gi =>
    right
    refine ⟨gi, ?_, ?_, ?_, ?_⟩ <;> simp [save_media_group, hp]

/-- Invariant of the in-memory index: the running total matches the group
summaries, and the folders recorded are `group_0001, group_0002, ...` in
order. -/
def mdOk (md : Metadata) : Prop :=
  md.total_files = (md.groups.map (fun g => g.files_count)).sum ∧
  md.groups.map (fun g => g.folder)
    = (List.range md.groups.length).map (fun i => groupDirName (i + 1))

/-- One archive call preserves the index invariant. -/
theorem save_preserves_mdOk (dl : PhotoInfo → Bool) (s : ArchState) (gid : String)
    (msgs : List Msg) (now : String) (h : mdOk s.metadata) :
    mdOk (save_media_group dl s gid msgs now).2.metadata := by
  rcases save_md_step dl s gid msgs now with ⟨_, hmd, _⟩ | ⟨gi, _, hg, ht, _⟩
  · rw [hmd]; exact h
  · constructor
    · rw [ht, hg, h.1]
      simp [mkSummary]
    · rw [hg]
      simp only [List.map_append, List.length_append, List.length_singleton]
      rw [h.2, List.range_succ, List.map_append]
      have hlen : (s.metadata.groups.map (fun g => g.folder)).length
          = s.metadata.groups.length := List.length_map _ _
      simp [mkSummary]

/-- A whole run of archive calls preserves the index invariant. -/
theorem runArchives_mdOk (dl : PhotoInfo → Bool)
    (ops : List (String × List Msg × String)) :
    ∀ s : ArchState, mdOk s.metadata → mdOk (runArchives dl ops s).1.metadata := by
  induction ops with
  | nil => intro s h; exact h
  | cons op rest ih =>
    intro s h
    obtain ⟨gid, msgs, now⟩ := op
    simp only [runArchives]
    exact ih _ (save_preserves_mdOk dl s gid msgs now h)

/-- Effect of one archive call on the recorded folder names: nothing on
failure, the folder named by `len(groups) + 1` appended on success. -/
theorem save_folders_step (dl : PhotoInfo → Bool) (s : ArchState) (gid : String)
    (msgs : List Msg) (now : String) :
    (save_media_group dl s gid msgs now).2.metadata.groups.map (fun g => g.folder)
      = s.metadata.groups.map (fun g => g.folder)
        ++ cond (save_media_group dl s gid msgs now).1
            [groupDirName (s.metadata.groups.length + 1)] [] := by
  rcases save_md_step dl s gid msgs now with ⟨hf, hmd, _⟩ | ⟨gi, ht, hg, _, _⟩
  · rw [hmd, hf]; simp
  · rw [hg, ht]; simp [mkSummary]

/-- No photo file is ever called `info.json`. -/
theorem photoFilename_ne_info (idx : Nat) (ext : String) :
    photoFilename idx ext ≠ "info.json" := by
  intro h
  have h2 : (photoFilename idx ext).data.take 2 = "info.json".data.take 2 := by rw [h]
  have h3 : (photoFilename idx ext).data.take 2 = ['p', 'h'] := rfl
  rw [h3] at h2
  exact absurd h2 (by decide)

/-- The message loop never writes the descriptor file: the binding of
`info.json` in the folder is untouched by the downloads. -/
theorem procMsgs_info (dl : PhotoInfo → Bool) (msgs : List Msg) :
    ∀ (idx : Nat) (gi : GroupInfo) (fol : Folder),
      aget (procMsgs dl msgs idx gi fol).1 "info.json" = aget fol "info.json" := by
  induction msgs with
  | nil => intro idx gi fol; rfl
  | cons m rest ih =>
    intro idx gi fol
    simp only [procMsgs]
    cases hph : m.photo.getLast? with
    | none => exact ih _ _ _
    | some p =>
      by_cases hdl : dl p
      · simp only [hdl, if_true]
        rw [ih]
        exact aget_aset_ne _ _ _ _ (photoFilename_ne_info _ _)
      · simp [hdl]

/-- The message loop never removes a file from the folder: any name bound
before processing is still bound afterwards. -/
theorem procMsgs_mono (dl : PhotoInfo → Bool) (msgs : List Msg) :
    ∀ (idx : Nat) (gi : GroupInfo) (fol : Folder) (f : String) (e : FileEntry),
      aget fol f = some e →
      ∃ e2, aget (procMsgs dl msgs idx gi fol).1 f = some e2 := by
  induction msgs with
  | nil => intro idx gi fol f e h; exact ⟨e, h⟩
  | cons m rest ih =>
    intro idx gi fol f e h
    simp only [procMsgs]
    cases hph : m.photo.getLast? with
    | none => exact ih _ _ _ _ e h
    | some p =>
      by_cases hdl : dl p
      · simp only [hdl, if_true]
        by_cases hf : photoFilename idx (fileExt p.remote_path) = f
        · exact ih _ _ _ _ (FileEntry.photo p.file_id)
            (by rw [← hf]; exact aget_aset_self _ _ _)
        · exact ih _ _ _ _ e (by rw [aget_aset_ne _ _ _ _ hf]; exact h)
      · exact ⟨e, by simp [hdl, h]⟩

/-- One archive call always leaves the group folder for sequence number
`len(groups) + 1` present on disk (`mkdir` happens before any download),
and never deletes a file that was already in that folder. -/
theorem save_fs_spec (dl : PhotoInfo → Bool) (s : ArchState) (gid : String)
    (msgs : List Msg) (now : String) :
    aget (save_media_group dl s gid msgs now).2.fs
        (groupDirName (s.metadata.groups.length + 1)) ≠ none ∧
    ∀ (f : String) (e : FileEntry),
      aget (folderOf s.fs (groupDirName (s.metadata.groups.length + 1))) f = some e →
      ∃ e2, aget (folderOf (save_media_group dl s gid msgs now).2.fs
          (groupDirName (s.metadata.groups.length + 1))) f = some e2 := by
  rcases hp : procMsgs dl msgs 1 (initGroupInfo gid now msgs)
      ((aget s.fs (groupDirName (s.metadata.groups.length + 1))).getD []) with ⟨fol, gi?⟩
  cases gi? with
  | none =>
    constructor
    · simp [save_media_group, hp, aget_aset_self]
    · intro f e h
      simp only [folderOf] at h
      have hm := procMsgs_mono dl msgs 1 (initGroupInfo gid now msgs) _ f e h
      rw [hp] at hm
      simpa [save_media_group, hp, folderOf, aget_aset_self] using hm
  | some gi =>
    constructor
    · simp [save_media_group, hp, aget_aset_self]
    · intro f e h
      simp only [folderOf] at h
      have hm := procMsgs_mono dl msgs 1 (initGroupInfo gid now msgs) _ f e h
      rw [hp] at hm
      obtain ⟨e2, he2⟩ := hm
      simp only [save_media_group, hp, folderOf, aget_aset_self, Option.getD_some]
      by_cases hf : f = "info.json"
      · subst hf
        exact ⟨FileEntry.info gi, aget_aset_self _ _ _⟩
      · exact ⟨e2, by rw [aget_aset_ne _ _ _ _ (fun hh => hf hh.symm)]; exact he2⟩

/-! Buffer-simulation lemmas. -/

/-- When every left event is no later than every right event, the timed
merge is plain concatenation. -/
theorem mergeFuel_append (fuel : Nat) :
    ∀ (as cs : List (Nat × Ev)), (∀ a ∈ as, ∀ c ∈ cs, a.1 ≤ c.1) →
      mergeFuel fuel as cs = as ++ cs := by
  induction fuel with
  | zero => intro as cs _; rfl
  | succ fuel ih =>
    intro as cs h
    cases as with
    | nil => rfl
    | cons a as =>
      cases cs with
      | nil => simp [mergeFuel]
      | cons c cs =>
        simp only [mergeFuel, if_pos (h a (by simp) c (by simp))]
        rw [ih as (c :: cs) (fun x hx y hy => h x (by simp [hx]) y hy)]
        rfl

/-- The times of the arrival events are the given arrival times. -/
theorem timedArrFrom_fst (ts : List Nat) :
    ∀ k : Nat, (timedArrFrom k ts).map Prod.fst = ts := by
  induction ts with
  | nil => intro k; rfl
  | cons t ts ih => intro k; simp [timedArrFrom, ih]

/-- `mergeFuel` with an empty left list returns the right list whatever the
fuel. -/
theorem mergeFuel_nil_left (fuel : Nat) (cs : List (Nat × Ev)) :
    mergeFuel fuel [] cs = cs := by
  cases fuel with
  | zero => rfl
  | succ f => rfl

/-- One comparison step of the merge. -/
theorem mergeFuel_cons_cons (fuel : Nat) (a c : Nat × Ev)
    (as cs : List (Nat × Ev)) :
    mergeFuel (fuel + 1) (a :: as) (c :: cs)
      = if a.1 ≤ c.1 then a :: mergeFuel fuel as (c :: cs)
        else c :: mergeFuel fuel (a :: as) cs := rfl

/-- The merge has exactly the events of its two inputs. -/
theorem mem_mergeFuel (fuel : Nat) :
    ∀ (as cs : List (Nat × Ev)) (x : Nat × Ev),
      x ∈ mergeFuel fuel as cs ↔ x ∈ as ∨ x ∈ cs := by
  induction fuel with
  | zero => intro as cs x; simp [mergeFuel]
  | succ f ih =>
    intro as cs x
    cases as with
    | nil => simp [mergeFuel]
    | cons a as =>
      cases cs with
      | nil => simp [mergeFuel]
      | cons c cs =>
        by_cases h : a.1 ≤ c.1
        · rw [mergeFuel_cons_cons, if_pos h]
          simp only [List.mem_cons, ih]
          tauto
        · rw [mergeFuel_cons_cons, if_neg h]
          simp only [List.mem_cons, ih]
          tauto

/-- When the earliest right event comes after the head of the left list but
before every later left event, the merge starts with those two events. -/
theorem mergeEv_serial (r1 d1 : Nat × Ev) (rs ds : List (Nat × Ev))
    (h1 : r1.1 ≤ d1.1) (h2 : ∀ x ∈ rs, d1.1 < x.1) :
    mergeEv (r1 :: rs) (d1 :: ds) = r1 :: d1 :: mergeEv rs ds := by
  have hA : (r1 :: rs).length + (d1 :: ds).length = rs.length + ds.length + 1 + 1 := by
    simp [List.length_cons]
    omega
  unfold mergeEv
  rw [hA, mergeFuel_cons_cons, if_pos h1]
  cases rs with
  | nil =>
    rw [mergeFuel_nil_left, mergeFuel_nil_left]
  | cons r2 rs2 =>
    have h3 : ¬ r2.1 ≤ d1.1 := Nat.not_le.mpr (h2 r2 (by simp))
    rw [mergeFuel_cons_cons, if_neg h3]

/-- The read events' lengths match the arrival times. -/
theorem timedReadsFrom_length (Q : Nat) (ts : List Nat) :
    ∀ k : Nat, (timedReadsFrom Q k ts).length = ts.length := by
  induction ts with
  | nil => intro k; rfl
  | cons t ts ih => intro k; simp [timedReadsFrom, ih]

/-- The del events' lengths match the arrival times. -/
theorem timedDelsFrom_length (Q : Nat) (D : Nat → Nat) (ts : List Nat) :
    ∀ k : Nat, (timedDelsFrom Q D k ts).length = ts.length := by
  induction ts with
  | nil => intro k; rfl
  | cons t ts ih => intro k; simp [timedDelsFrom, ih]

/-- Shape and time of any read event. -/
theorem timedReadsFrom_mem (Q : Nat) (ts : List Nat) :
    ∀ (k : Nat) (x : Nat × Ev), x ∈ timedReadsFrom Q k ts →
      ∃ i t, t ∈ ts ∧ k ≤ i ∧ x = (t + Q, Ev.read i) := by
  induction ts with
  | nil => intro k x h; simp [timedReadsFrom] at h
  | cons t ts ih =>
    intro k x h
    simp only [timedReadsFrom, List.mem_cons] at h
    rcases h with h | h
    · exact ⟨k, t, by simp, Nat.le_refl k, h⟩
    · obtain ⟨i, t2, ht2, hk, hx⟩ := ih (k + 1) x h
      exact ⟨i, t2, by simp [ht2], by omega, hx⟩

/-- Shape and time of any del event. -/
theorem timedDelsFrom_mem (Q : Nat) (D : Nat → Nat) (ts : List Nat) :
    ∀ (k : Nat) (x : Nat × Ev), x ∈ timedDelsFrom Q D k ts →
      ∃ i t, t ∈ ts ∧ k ≤ i ∧ x = (t + Q + D i, Ev.del i) := by
  induction ts with
  | nil => intro k x h; simp [timedDelsFrom] at h
  | cons t ts ih =>
    intro k x h
    simp only [timedDelsFrom, List.mem_cons] at h
    rcases h with h | h
    · exact ⟨k, t, by simp, Nat.le_refl k, h⟩
    · obtain ⟨i, t2, ht2, hk, hx⟩ := ih (k + 1) x h
      exact ⟨i, t2, by simp [ht2], by omega, hx⟩

/-- Processing arrival events only appends the message indices in order. -/
theorem foldl_arr (ts : List Nat) :
    ∀ (k : Nat) (l : List Nat) (A : List (List Nat)) (F : List Nat) (E : Nat),
      List.foldl stepEv
          { buffer := some l, archived := A, flushed := F, errors := E }
          (timedArrFrom k ts)
        = { buffer := some (l ++ List.range' k ts.length), archived := A,
            flushed := F, errors := E } := by
  induction ts with
  | nil => intro k l A F E; simp [timedArrFrom]
  | cons t ts ih =>
    intro k l A F E
    simp only [timedArrFrom, List.foldl_cons, stepEv, Option.getD_some]
    rw [ih (k + 1) (l ++ [k]) A F E]
    simp [List.range']

/-- An event that cannot disturb a flushed-and-deleted group: a read of any
check, or the del of a check outside the given flushed set. -/
def harmlessFor (F : List Nat) (e : Nat × Ev) : Prop :=
  (∃ i, e.2 = Ev.read i) ∨ (∃ j, e.2 = Ev.del j ∧ j ∉ F)

/-- Reads over the defaultdict's empty entry and dels of non-flushing
checks leave the state alone. -/
theorem foldl_tail_stable (F : List Nat) :
    ∀ (l : List (Nat × Ev)), (∀ e ∈ l, harmlessFor F e) →
      ∀ (A : List (List Nat)) (E : Nat),
        List.foldl stepEv
            { buffer := some [], archived := A, flushed := F, errors := E } l
          = { buffer := some [], archived := A, flushed := F, errors := E } := by
  intro l
  induction l with
  | nil => intro _ A E; rfl
  | cons e l ih =>
    intro h A E
    obtain ⟨t, ev⟩ := e
    rcases h (t, ev) (by simp) with ⟨i, hev⟩ | ⟨j, hev, hj⟩
    · simp only at hev
      subst hev
      simp only [List.foldl_cons]
      rw [show stepEv { buffer := some [], archived := A, flushed := F, errors := E }
          (t, Ev.read i)
          = { buffer := some [], archived := A, flushed := F, errors := E } from rfl]
      exact ih (fun x hx => h x (by simp [hx])) A E
    · simp only at hev
      subst hev
      simp only [List.foldl_cons]
      have hst : stepEv { buffer := some [], archived := A, flushed := F, errors := E }
          (t, Ev.del j)
          = { buffer := some [], archived := A, flushed := F, errors := E } := by
        simp [stepEv, hj]
      rw [hst]
      exact ih (fun x hx => h x (by simp [hx])) A E

/-- After the flushing check's del removed the key, a tail of reads and
non-flushing dels containing at least one read leaves the empty defaultdict
entry behind and changes nothing else. -/
theorem foldl_tail_after_del (F : List Nat) :
    ∀ (l : List (Nat × Ev)), (∀ e ∈ l, harmlessFor F e) →
      (∃ e ∈ l, ∃ i, e.2 = Ev.read i) →
      ∀ (A : List (List Nat)) (E : Nat),
        List.foldl stepEv
            { buffer := none, archived := A, flushed := F, errors := E } l
          = { buffer := some [], archived := A, flushed := F, errors := E } := by
  intro l
  induction l with
  | nil =>
    intro _ hr A E
    simp at hr
  | cons e l ih =>
    intro h hr A E
    obtain ⟨t, ev⟩ := e
    rcases h (t, ev) (by simp) with ⟨i, hev⟩ | ⟨j, hev, hj⟩
    · simp only at hev
      subst hev
      simp only [List.foldl_cons]
      rw [show stepEv { buffer := none, archived := A, flushed := F, errors := E }
          (t, Ev.read i)
          = { buffer := some [], archived := A, flushed := F, errors := E } from rfl]
      exact foldl_tail_stable F l (fun x hx => h x (by simp [hx])) A E
    · simp only at hev
      subst hev
      simp only [List.foldl_cons]
      have hst : stepEv { buffer := none, archived := A, flushed := F, errors := E }
          (t, Ev.del j)
          = { buffer := none, archived := A, flushed := F, errors := E } := by
        simp [stepEv, hj]
      rw [hst]
      apply ih (fun x hx => h x (by simp [hx])) ?_ A E
      obtain ⟨e2, he2, i2, hev2⟩ := hr
      rcases List.mem_cons.mp he2 with he3 | he3
      · exfalso
        rw [he3] at hev2
        simp at hev2
      · exact ⟨e2, he3, i2, hev2⟩

/-- Serial coalescing run: all messages of the group arrive within one
quiet period of the first one, and the flush started by the first check
(duration `D 1`) completes before any later check wakes up.  Then every
arrival precedes every check slice, the first check hands off the whole
group once and deletes the entry before the second check's membership test,
and the remaining checks find the entry empty: exactly one batch, the empty
defaultdict entry left behind (when N >= 2), and no `KeyError`. -/
theorem runSim_serial (Q t0 : Nat) (D : Nat → Nat) (rest : List Nat)
    (hQ : 0 < Q) (hlow : ∀ t ∈ rest, t0 ≤ t) (hspan : ∀ t ∈ rest, t < t0 + Q)
    (hser : ∀ t ∈ rest, t0 + D 1 < t) :
    runSim (mkSchedule Q D (t0 :: rest))
      = { buffer := if rest = [] then none else some [],
          archived := [List.range' 1 (rest.length + 1)],
          flushed := [1], errors := 0 } := by
  have hinner : mergeEv (timedReadsFrom Q 1 (t0 :: rest)) (timedDelsFrom Q D 1 (t0 :: rest))
      = (t0 + Q, Ev.read 1) :: (t0 + Q + D 1, Ev.del 1)
        :: mergeEv (timedReadsFrom Q 2 rest) (timedDelsFrom Q D 2 rest) := by
    show mergeEv ((t0 + Q, Ev.read 1) :: timedReadsFrom Q 2 rest)
        ((t0 + Q + D 1, Ev.del 1) :: timedDelsFrom Q D 2 rest) = _
    apply mergeEv_serial
    · exact Nat.le_add_right _ _
    · intro x hx
      obtain ⟨i, t, ht, _, hxe⟩ := timedReadsFrom_mem Q rest 2 x hx
      have := hser t ht
      rw [hxe]
      simp
      omega
  have houter : mkSchedule Q D (t0 :: rest)
      = timedArrFrom 1 (t0 :: rest)
        ++ mergeEv (timedReadsFrom Q 1 (t0 :: rest)) (timedDelsFrom Q D 1 (t0 :: rest)) := by
    unfold mkSchedule mergeEv
    apply mergeFuel_append
    intro a ha c hc
    have ha2 : a.1 ∈ t0 :: rest := by
      have := List.mem_map_of_mem Prod.fst ha
      rwa [timedArrFrom_fst] at this
    have hat : a.1 < t0 + Q := by
      rcases List.mem_cons.mp ha2 with h1 | h1
      · omega
      · exact hspan _ h1
    have hct : t0 + Q ≤ c.1 := by
      rcases (mem_mergeFuel _ _ _ c).mp hc with h1 | h1
      · obtain ⟨i, t, ht, _, hce⟩ := timedReadsFrom_mem Q (t0 :: rest) 1 c h1
        have hts : t0 ≤ t := by
          rcases List.mem_cons.mp ht with h2 | h2
          · omega
          · exact hlow _ h2
        rw [hce]
        simp
        omega
      · obtain ⟨i, t, ht, _, hce⟩ := timedDelsFrom_mem Q D (t0 :: rest) 1 c h1
        have hts : t0 ≤ t := by
          rcases List.mem_cons.mp ht with h2 | h2
          · omega
          · exact hlow _ h2
        rw [hce]
        simp
        omega
    omega
  rw [runSim, houter, hinner, List.foldl_append]
  have h1 : List.foldl stepEv
      { buffer := none, archived := [], flushed := [], errors := 0 }
      (timedArrFrom 1 (t0 :: rest))
      = { buffer := some (List.range' 1 (rest.length + 1)), archived := [],
          flushed := [], errors := 0 } := by
    show List.foldl stepEv _ ((t0, Ev.arr 1) :: timedArrFrom 2 rest) = _
    simp only [List.foldl_cons]
    rw [show stepEv { buffer := none, archived := [], flushed := [], errors := 0 }
        (t0, Ev.arr 1)
        = { buffer := some [1], archived := [], flushed := [], errors := 0 } from rfl]
    rw [foldl_arr rest 2 [1] [] [] 0]
    rfl
  rw [h1]
  simp only [List.foldl_cons]
  have hread1 : stepEv { buffer := some (List.range' 1 (rest.length + 1)),
                         archived := [], flushed := [], errors := 0 }
        (t0 + Q, Ev.read 1)
      = { buffer := some (List.range' 1 (rest.length + 1)),
          archived := [List.range' 1 (rest.length + 1)], flushed := [1],
          errors := 0 } := rfl
  rw [hread1]
  have hdel1 : stepEv { buffer := some (List.range' 1 (rest.length + 1)),
                        archived := [List.range' 1 (rest.length + 1)],
                        flushed := [1], errors := 0 }
        (t0 + Q + D 1, Ev.del 1)
      = { buffer := none, archived := [List.range' 1 (rest.length + 1)],
          flushed := [1], errors := 0 } := rfl
  rw [hdel1]
  have hharm : ∀ e ∈ mergeEv (timedReadsFrom Q 2 rest) (timedDelsFrom Q D 2 rest),
      harmlessFor [1] e := by
    intro e he
    rcases (mem_mergeFuel _ _ _ e).mp he with h1 | h1
    · obtain ⟨i, t, _, _, hee⟩ := timedReadsFrom_mem Q rest 2 e h1
      exact Or.inl ⟨i, by rw [hee]⟩
    · obtain ⟨i, t, _, hk, hee⟩ := timedDelsFrom_mem Q D rest 2 e h1
      refine Or.inr ⟨i, by rw [hee], ?_⟩
      simp only [List.mem_singleton]
      omega
  cases rest with
  | nil => rfl
  | cons t1 rest2 =>
    rw [foldl_tail_after_del [1] _ hharm ?_]
    · simp
    · refine ⟨(t1 + Q, Ev.read 2), ?_, 2, rfl⟩
      exact (mem_mergeFuel _ _ _ _).mpr (Or.inl (by simp [timedReadsFrom]))
/-! Metadata store lemmas. -/

/-- Decoding inverts encoding for one group summary. -/
theorem decodeSummary_encode (g : GroupSummary) :
    decodeSummary (encodeSummary g) = some g := rfl

/-- Decoding inverts encoding for a list of group summaries. -/
theorem decodeSummaries_map (gs : List GroupSummary) :
    decodeSummaries (gs.map encodeSummary) = some gs := by
  induction gs with
  | nil => rfl
  | cons g gs ih => simp [decodeSummaries, decodeSummary_encode, ih]

/-- Decoding inverts encoding for the whole metadata index. -/
theorem decodeMetadata_encode (md : Metadata) :
    decodeMetadata (encodeMetadata md) = some md := by
  obtain ⟨gs, t⟩ := md
  show (match decodeSummaries (gs.map encodeSummary) with
    | some gs2 => some ({ groups := gs2, total_files := t } : Metadata)
    | none => none) = some ({ groups := gs, total_files := t } : Metadata)
  rw [decodeSummaries_map]

/-- `take` is idempotent in the sense needed for the write trace: taking a
prefix and then taking its own length gives the same prefix. -/
theorem take_own_length {α : Type} (d : List α) (k : Nat) :
    d.take k = d.take (d.take k).length := by
  rw [List.length_take]
  rcases Nat.le_total k d.length with hle | hle
  · rw [Nat.min_eq_left hle]
  · rw [Nat.min_eq_right hle, List.take_length, List.take_of_length_le hle]

/-! The claims. -/

/-- C1 (counterexample): archiving the fixture album in which the second of
three attachments fails to download does report failure, but a group folder
IS committed to disk, containing the first, already-downloaded photo — this
refutes the claim that no group folder is persisted when archiving fails
mid-download. -/
theorem c1_partial_failure_counterexample :
    (save_media_group dlC1 emptyArchState "g" [msgA, msgB, msgC] "d").1 = false ∧
    aget (save_media_group dlC1 emptyArchState "g" [msgA, msgB, msgC] "d").2.fs
        (groupDirName 1) = some [("photo_01.jpg", FileEntry.photo "f1")] := by
  constructor <;> decide

/-- C1 (amended): if `archiveGroup` (`save_media_group`) fails at any step,
it reports failure, the in-memory metadata index and the persisted index
file are unchanged, and the descriptor binding (`info.json`) of the group
folder is unchanged — but the group folder itself persists (with any files
downloaded before the failure), because the folder is created and files are
written before the failure point. -/
theorem c1_failure_commits_no_index (dl : PhotoInfo → Bool) (s : ArchState)
    (gid : String) (msgs : List Msg) (now : String)
    (h : (save_media_group dl s gid msgs now).1 = false) :
    (save_media_group dl s gid msgs now).2.metadata = s.metadata ∧
    (save_media_group dl s gid msgs now).2.metadataFile = s.metadataFile ∧
    aget (save_media_group dl s gid msgs now).2.fs
        (groupDirName (s.metadata.groups.length + 1)) ≠ none ∧
    aget (folderOf (save_media_group dl s gid msgs now).2.fs
        (groupDirName (s.metadata.groups.length + 1))) "info.json"
      = aget (folderOf s.fs (groupDirName (s.metadata.groups.length + 1)))
          "info.json" := by
  rcases save_md_step dl s gid msgs now with ⟨_, hmd, hfile⟩ | ⟨gi, htru, _, _, _⟩
  swap
  · rw [htru] at h
    exact absurd h (by simp)
  refine ⟨hmd, hfile, (save_fs_spec dl s gid msgs now).1, ?_⟩
  rcases hp : procMsgs dl msgs 1 (initGroupInfo gid now msgs)
      ((aget s.fs (groupDirName (s.metadata.groups.length + 1))).getD []) with ⟨fol, gi?⟩
  cases gi? with
  | some gi2 =>
    exfalso
    have htr2 : (save_media_group dl s gid msgs now).1 = true := by
      simp [save_media_group, hp]
    rw [htr2] at h
    exact absurd h (by simp)
  | none =>
    have hinfo := procMsgs_info dl msgs 1 (initGroupInfo gid now msgs)
      ((aget s.fs (groupDirName (s.metadata.groups.length + 1))).getD [])
    rw [hp] at hinfo
    simp only [save_media_group, hp, folderOf, aget_aset_self, Option.getD_some]
    exact hinfo

/-- C1 (witness): the amended statement evaluated on the fixture album
whose second download fails, from a fresh archiver. -/
theorem c1_failure_commits_no_index_witness :
    (save_media_group dlC1 emptyArchState "g" [msgA, msgB, msgC] "d").2.metadata
        = emptyArchState.metadata ∧
    (save_media_group dlC1 emptyArchState "g" [msgA, msgB, msgC] "d").2.metadataFile
        = emptyArchState.metadataFile ∧
    aget (save_media_group dlC1 emptyArchState "g" [msgA, msgB, msgC] "d").2.fs
        (groupDirName (emptyArchState.metadata.groups.length + 1)) ≠ none ∧
    aget (folderOf (save_media_group dlC1 emptyArchState "g" [msgA, msgB, msgC] "d").2.fs
        (groupDirName (emptyArchState.metadata.groups.length + 1))) "info.json"
      = aget (folderOf emptyArchState.fs
          (groupDirName (emptyArchState.metadata.groups.length + 1))) "info.json" :=
  c1_failure_commits_no_index dlC1 emptyArchState "g" [msgA, msgB, msgC] "d" (by decide)

/-- C2 (counterexample): two schedules, each with all inter-arrival gaps
smaller than the quiet period 10, that do not produce exactly one archived
record.  With fast flushes (duration 1) and arrivals at 0, 6, 12, the check
scheduled by the first message fires at time 10, before the third message
arrives, and the group splits into batches of sizes 2 and 1.  With slow
flushes (duration 5) and arrivals at 0, 1, 2, the checks waking at 11 and
12 fire during the first check's flush window, find the entry still
populated (the `del` of line 175 only runs after the awaits of
`save_media_group` and `reply_text`), and hand the same batch to the
archiver again: three identical records, and the two losing deletes raise
`KeyError`. -/
theorem c2_multi_flush_counterexample :
    ((runSim (mkSchedule 10 (fun _ => 1) [0, 6, 12])).archived = [[1, 2], [3]] ∧
      (runSim (mkSchedule 10 (fun _ => 1) [0, 6, 12])).archived.length ≠ 1) ∧
    ((runSim (mkSchedule 10 (fun _ => 5) [0, 1, 2])).archived
        = [[1, 2, 3], [1, 2, 3], [1, 2, 3]] ∧
      (runSim (mkSchedule 10 (fun _ => 5) [0, 1, 2])).errors = 2) := by
  refine ⟨⟨?_, ?_⟩, ?_, ?_⟩ <;> decide

/-- C2 (amended): each appended message schedules its own delayed flush
check one quiet period after its arrival.  When all N messages arrive
within one quiet period of the FIRST message (not merely with gaps below
the quiet period) AND the flush started by the first check — its downloads
and reply, of duration `D 1` — completes before any later check wakes up,
then the first check is the first to run after the last arrival, it hands
the whole group to the archiver once and deletes the entry before the next
membership test, and the remaining N-1 checks find the entry empty and do
nothing: exactly one batch is archived, its message count is N, and no
`KeyError` is raised.  Without the serial-flush condition, checks waking
during the flush window re-flush the still-populated entry. -/
theorem c2_single_flush_when_serial (Q t0 : Nat) (D : Nat → Nat) (rest : List Nat)
    (hQ : 0 < Q) (hlow : ∀ t ∈ rest, t0 ≤ t) (hspan : ∀ t ∈ rest, t < t0 + Q)
    (hser : ∀ t ∈ rest, t0 + D 1 < t) :
    (runSim (mkSchedule Q D (t0 :: rest))).archived
      = [List.range' 1 (rest.length + 1)] ∧
    (runSim (mkSchedule Q D (t0 :: rest))).archived.map List.length
      = [rest.length + 1] ∧
    (runSim (mkSchedule Q D (t0 :: rest))).errors = 0 := by
  rw [runSim_serial Q t0 D rest hQ hlow hspan hser]
  refine ⟨rfl, by simp, rfl⟩

/-- C2 (witness): the amended statement evaluated at quiet period 10,
arrival times 0, 2, 4 and flush duration 1. -/
theorem c2_single_flush_when_serial_witness :
    (runSim (mkSchedule 10 (fun _ => 1) [0, 2, 4])).archived = [List.range' 1 3] ∧
    (runSim (mkSchedule 10 (fun _ => 1) [0, 2, 4])).archived.map List.length = [3] ∧
    (runSim (mkSchedule 10 (fun _ => 1) [0, 2, 4])).errors = 0 :=
  c2_single_flush_when_serial 10 0 (fun _ => 1) [2, 4] (by decide) (by decide)
    (by decide) (by decide)

/-- C3: after any sequence of (successful or failed) archive operations
from the empty index, the running total equals the sum of the per-group
file counts; moreover one archive call keeps the existing summaries as an
untouched prefix and appends exactly one summary on success and none on
failure (append-only growth, one summary per successful archive). -/
theorem c3_metadata_index_invariant :
    (∀ (dl : PhotoInfo → Bool) (ops : List (String × List Msg × String)),
      (runArchives dl ops emptyArchState).1.metadata.total_files
        = ((runArchives dl ops emptyArchState).1.metadata.groups.map
            (fun g => g.files_count)).sum) ∧
    (∀ (dl : PhotoInfo → Bool) (s : ArchState) (gid : String) (msgs : List Msg)
        (now : String),
      (save_media_group dl s gid msgs now).2.metadata.groups.take
          s.metadata.groups.length = s.metadata.groups ∧
      (save_media_group dl s gid msgs now).2.metadata.groups.length
        = s.metadata.groups.length + cond (save_media_group dl s gid msgs now).1 1 0) := by
  constructor
  · intro dl ops
    exact (runArchives_mdOk dl ops emptyArchState ⟨rfl, rfl⟩).1
  · intro dl s gid msgs now
    rcases save_md_step dl s gid msgs now with ⟨hf, hmd, _⟩ | ⟨gi, ht, hg, _, _⟩
    · rw [hmd, hf]
      exact ⟨List.take_length _, rfl⟩
    · rw [hg, ht]
      exact ⟨List.take_left _ _, by simp⟩

/-- C4 (counterexample): a completed flush (the buffer entry is removed,
an archive was attempted) whose archive failed sends NO acknowledgement at
all — the source guards the reply with `if success:` — refuting the claim
that exactly one acknowledgement is sent regardless of the archive
outcome. -/
theorem c4_ack_counterexample :
    (handle_media_flush (fun _ => false) emptyArchState "g" (some [msgA, msgB]) "d").entryAfter
        = none ∧
    (handle_media_flush (fun _ => false) emptyArchState "g" (some [msgA, msgB]) "d").archResult
        = some false ∧
    (handle_media_flush (fun _ => false) emptyArchState "g" (some [msgA, msgB]) "d").replies
        = [] := by
  refine ⟨?_, ?_, ?_⟩ <;> decide

/-- C4 (amended): a completed flush of a non-empty buffer entry sends
exactly one acknowledgement (reporting the message count) when the archive
succeeded, and no acknowledgement when it failed. -/
theorem c4_ack_iff_success (dl : PhotoInfo → Bool) (s : ArchState) (gid : String)
    (msgs : List Msg) (now : String) (h : msgs ≠ []) :
    (handle_media_flush dl s gid (some msgs) now).replies
      = (if (save_media_group dl s gid msgs now).1 = true
          then [ackText msgs.length] else []) := by
  simp [handle_media_flush, h]

/-- C4 (witness): the amended statement evaluated on a one-message group
whose download succeeds. -/
theorem c4_ack_iff_success_witness :
    (handle_media_flush (fun _ => true) emptyArchState "g" (some [msgA]) "d").replies
      = (if (save_media_group (fun _ => true) emptyArchState "g" [msgA] "d").1 = true
          then [ackText 1] else []) :=
  c4_ack_iff_success (fun _ => true) emptyArchState "g" [msgA] "d" (by decide)

/-- C5: a flush of a non-empty buffer entry always removes the entry, and
the archive outcome reaches the caller only as the boolean result of
`save_media_group` (the model of the source's catch-all `except` returning
`False`), so a failed group never remains buffered. -/
theorem c5_failure_reported_and_buffer_cleared (dl : PhotoInfo → Bool)
    (s : ArchState) (gid : String) (msgs : List Msg) (now : String)
    (h : msgs ≠ []) :
    (handle_media_flush dl s gid (some msgs) now).entryAfter = none ∧
    (handle_media_flush dl s gid (some msgs) now).archResult
      = some (save_media_group dl s gid msgs now).1 ∧
    (handle_media_flush dl s gid (some msgs) now).arch
      = (save_media_group dl s gid msgs now).2 := by
  simp [handle_media_flush, h]

/-- C5 (witness): the statement evaluated on a one-message group whose
download fails: the archive reports `false` and the entry is still
removed. -/
theorem c5_failure_reported_and_buffer_cleared_witness :
    (handle_media_flush (fun _ => false) emptyArchState "g" (some [msgA]) "d").entryAfter
        = none ∧
    (handle_media_flush (fun _ => false) emptyArchState "g" (some [msgA]) "d").archResult
      = some (save_media_group (fun _ => false) emptyArchState "g" [msgA] "d").1 ∧
    (handle_media_flush (fun _ => false) emptyArchState "g" (some [msgA]) "d").arch
      = (save_media_group (fun _ => false) emptyArchState "g" [msgA] "d").2 :=
  c5_failure_reported_and_buffer_cleared (fun _ => false) emptyArchState "g" [msgA] "d"
    (by decide)

/-- C6: over any run from the empty index the recorded folders are exactly
`group_0001, group_0002, ...` in order — so with every archive succeeding,
the Nth archived group occupies the zero-padded folder numbered N — and one
archive call assigns the folder named by `len(groups) + 1` at call time
(appended on success, nothing on failure). -/
theorem c6_sequence_numbering :
    (∀ (dl : PhotoInfo → Bool) (ops : List (String × List Msg × String)),
      (runArchives dl ops emptyArchState).1.metadata.groups.map (fun g => g.folder)
        = (List.range (runArchives dl ops emptyArchState).1.metadata.groups.length).map
            (fun i => groupDirName (i + 1))) ∧
    (∀ (dl : PhotoInfo → Bool) (s : ArchState) (gid : String) (msgs : List Msg)
        (now : String),
      (save_media_group dl s gid msgs now).2.metadata.groups.map (fun g => g.folder)
        = s.metadata.groups.map (fun g => g.folder)
          ++ cond (save_media_group dl s gid msgs now).1
              [groupDirName (s.metadata.groups.length + 1)] []) := by
  constructor
  · intro dl ops
    exact (runArchives_mdOk dl ops emptyArchState ⟨rfl, rfl⟩).2
  · intro dl s gid msgs now
    exact save_folders_step dl s gid msgs now

/-- C7: loading the metadata store right after saving any index returns
that same index, and loading when no index file exists returns the empty
index. -/
theorem c7_load_save_roundtrip :
    (∀ md : Metadata, _load_metadata (_save_metadata md) = some md) ∧
    _load_metadata none = some { groups := [], total_files := 0 } := by
  constructor
  · intro md
    show decodeMetadata (encodeMetadata md) = some md
    exact decodeMetadata_encode md
  · rfl

/-- C8 (counterexample): while `_save_metadata` writes the index
`{groups: [], total_files: 1}` over a store previously holding
`{groups: [], total_files: 0}`, a concurrent reader can observe a state
(for instance the truncated empty file) that is neither the old nor the new
serialized index: `open(..., 'w')` followed by an in-place `json.dump` is
not an acquire-write-replace save. -/
theorem c8_atomic_save_counterexample :
    ¬ ∀ v ∈ saveMetadataTrace { groups := [], total_files := 1 },
      (v = printMetadata { groups := [], total_files := 0 } ∨
       v = printMetadata { groups := [], total_files := 1 }) := by
  decide

/-- C8 (amended): `_save_metadata` truncates the index file in place and
then writes the serialization left to right: the truncated empty file is
visible during every save, every visible state is a (possibly partial)
prefix of the new serialization, and only the final state is the complete
index. -/
theorem c8_truncate_then_write (md : Metadata) :
    "" ∈ saveMetadataTrace md ∧
    (saveMetadataTrace md).getLast? = some (printMetadata md) ∧
    ∀ v ∈ saveMetadataTrace md,
      v.data = (printMetadata md).data.take v.data.length := by
  refine ⟨?_, ?_, ?_⟩
  · exact List.mem_map.mpr ⟨0, List.mem_range.mpr (Nat.succ_pos _), rfl⟩
  · unfold saveMetadataTrace writeStates
    rw [List.range_succ, List.map_append, List.map_cons, List.map_nil,
      List.getLast?_concat, List.take_length]
  · intro v hv
    unfold saveMetadataTrace writeStates at hv
    obtain ⟨k, _, hfk⟩ := List.mem_map.mp hv
    rw [← hfk]
    exact take_own_length _ k

/-- C8 (witness): the amended statement evaluated on the empty index, with
the prefix clause applied to the truncated empty file. -/
theorem c8_truncate_then_write_witness :
    "" ∈ saveMetadataTrace { groups := [], total_files := 0 } ∧
    "".data = (printMetadata { groups := [], total_files := 0 }).data.take
        "".data.length :=
  ⟨(c8_truncate_then_write { groups := [], total_files := 0 }).1,
   (c8_truncate_then_write { groups := [], total_files := 0 }).2.2 ""
     ((c8_truncate_then_write { groups := [], total_files := 0 }).1)⟩

/-- C9 (counterexample): two groups of N = 2 messages whose scheduled
checks all run yet leave no empty-list entry behind.  With slow flushes
(duration 5) and arrivals at 0, 1, the second check fires during the first
flush window, re-flushes the still-populated entry, and after the first
`del` removes the key the second `del` raises `KeyError`: the key ends up
absent, not bound to `[]`.  With fast flushes (duration 1) and arrivals at
0, 20, the group splits and the LAST check flushes the re-buffered second
message and deletes the key.  Either way the buffer does not retain an
empty-list entry, refuting the claim for arbitrary groups of N >= 2
messages. -/
theorem c9_entry_absent_counterexample :
    ((runSim (mkSchedule 10 (fun _ => 5) [0, 1])).buffer = none ∧
      (runSim (mkSchedule 10 (fun _ => 5) [0, 1])).archived = [[1, 2], [1, 2]] ∧
      (runSim (mkSchedule 10 (fun _ => 5) [0, 1])).errors = 1) ∧
    ((runSim (mkSchedule 10 (fun _ => 1) [0, 20])).buffer = none ∧
      (runSim (mkSchedule 10 (fun _ => 1) [0, 20])).archived = [[1], [2]]) := by
  refine ⟨⟨?_, ?_, ?_⟩, ?_, ?_⟩ <;> decide

/-- C9 (amended): for a group of N >= 2 messages that all arrive within one
quiet period of the first, and whose first check's flush completes before
any later check wakes up, after all N scheduled checks have run the buffer
permanently retains the empty-list entry for the group id: the flushing
check deleted the key after its awaits, and every later check's defaultdict
membership test re-inserted `[]` and never deleted it. -/
theorem c9_empty_entry_retained_serial (Q t0 : Nat) (D : Nat → Nat)
    (rest : List Nat) (hQ : 0 < Q) (hrest : rest ≠ [])
    (hlow : ∀ t ∈ rest, t0 ≤ t) (hspan : ∀ t ∈ rest, t < t0 + Q)
    (hser : ∀ t ∈ rest, t0 + D 1 < t) :
    (runSim (mkSchedule Q D (t0 :: rest))).buffer = some [] := by
  rw [runSim_serial Q t0 D rest hQ hlow hspan hser]
  simp [hrest]

/-- C9 (witness): the amended statement evaluated at quiet period 10,
arrival times 0, 3, 6 and flush duration 1. -/
theorem c9_empty_entry_retained_serial_witness :
    (runSim (mkSchedule 10 (fun _ => 1) [0, 3, 6])).buffer = some [] :=
  c9_empty_entry_retained_serial 10 0 (fun _ => 1) [3, 6] (by decide) (by decide)
    (by decide) (by decide) (by decide)

/-- C10: when an archive attempt fails, the metadata index is unchanged, so
the next attempt computes the same sequence number; the failed attempt left
that group folder on disk (`mkdir` ran before the failure), the next call
maps its summaries onto the same folder name, and since folder creation
tolerates an existing directory and downloads never delete files, every
file left by the failed attempt is still present in that folder after the
next archive runs there (its own files overwrite same-named leftovers and
mix with the rest). -/
theorem c10_folder_reuse_after_failure (dl1 : PhotoInfo → Bool) (s : ArchState)
    (gid1 : String) (msgs1 : List Msg) (now1 : String)
    (h : (save_media_group dl1 s gid1 msgs1 now1).1 = false) :
    (save_media_group dl1 s gid1 msgs1 now1).2.metadata = s.metadata ∧
    aget (save_media_group dl1 s gid1 msgs1 now1).2.fs
        (groupDirName (s.metadata.groups.length + 1)) ≠ none ∧
    ∀ (dl2 : PhotoInfo → Bool) (gid2 : String) (msgs2 : List Msg) (now2 : String),
      ((save_media_group dl2 (save_media_group dl1 s gid1 msgs1 now1).2
            gid2 msgs2 now2).2.metadata.groups.map (fun g => g.folder)
        = s.metadata.groups.map (fun g => g.folder)
          ++ cond (save_media_group dl2 (save_media_group dl1 s gid1 msgs1 now1).2
                gid2 msgs2 now2).1
              [groupDirName (s.metadata.groups.length + 1)] []) ∧
      ∀ (f : String) (e : FileEntry),
        aget (folderOf (save_media_group dl1 s gid1 msgs1 now1).2.fs
            (groupDirName (s.metadata.groups.length + 1))) f = some e →
        ∃ e2, aget (folderOf (save_media_group dl2
            (save_media_group dl1 s gid1 msgs1 now1).2 gid2 msgs2 now2).2.fs
            (groupDirName (s.metadata.groups.length + 1))) f = some e2 := by
  rcases save_md_step dl1 s gid1 msgs1 now1 with ⟨_, hmd, _⟩ | ⟨gi, htru, _, _, _⟩
  swap
  · rw [htru] at h
    exact absurd h (by simp)
  refine ⟨hmd, (save_fs_spec dl1 s gid1 msgs1 now1).1, ?_⟩
  intro dl2 gid2 msgs2 now2
  constructor
  · have h2 := save_folders_step dl2 (save_media_group dl1 s gid1 msgs1 now1).2
      gid2 msgs2 now2
    rw [hmd] at h2
    exact h2
  · intro f e hf
    have h3 := (save_fs_spec dl2 (save_media_group dl1 s gid1 msgs1 now1).2
      gid2 msgs2 now2).2
    rw [hmd] at h3
    exact h3 f e hf

/-- C10 (witness): from a fresh archiver, archiving the fixture album fails
on its third attachment leaving `photo_01.jpg` and `photo_02.jpg` in
`group_0001`; a following successful archive of a one-photo group reuses
`group_0001` and the leftover `photo_02.jpg` is still there, mixed with the
new group's files. -/
theorem c10_folder_reuse_after_failure_witness :
    ∃ e2, aget (folderOf (save_media_group (fun _ => true)
        (save_media_group dlC10 emptyArchState "g" [msgA, msgB, msgC] "d").2
        "h" [msgD] "d2").2.fs
        (groupDirName (emptyArchState.metadata.groups.length + 1)))
      "photo_02.jpg" = some e2 :=
  ((c10_folder_reuse_after_failure dlC10 emptyArchState "g" [msgA, msgB, msgC] "d"
      (by decide)).2.2 (fun _ => true) "h" [msgD] "d2").2
    "photo_02.jpg" (FileEntry.photo "f2") (by decide)
